import Mathlib

/-!
Verification of the NINII session-generator server (src/index.js).

The development shallowly embeds the parts of the program the claims are
about: the base64 and JSON token serialization (`serializeAuthDir`, the
`SILA_` token), the filesystem helpers (`cleanupDir`), the in-memory session
lifecycle (`sessions` / `activeByPhone` registries with
`clearSession` / `finalizeSession` / idle-timer firing / SSE attachment),
the `POST /pair` supersession path, the `POST /qr` setup-failure path, the
`finalizeSession` credential poll loop, and the response-sent guard of the
two HTTP flows.  Strings and buffers are modelled as lists of byte values
(`List Nat`, each element `< 256`; JavaScript strings that stay ASCII have
byte lists equal to their code-unit lists).
-/

namespace NINII

/-! ## Base64 (Node `Buffer.toString('base64')` / decoding), over byte lists -/

/-- The standard base64 alphabet: sextet value to ASCII code. -/
def b64Char (i : Nat) : Nat :=
  if i < 26 then 65 + i
  else if i < 52 then 97 + (i - 26)
  else if i < 62 then 48 + (i - 52)
  else if i = 62 then 43
  else 47

/-- Inverse of `b64Char`: ASCII code to sextet value; `none` on the
padding character and on anything outside the alphabet. -/
def b64Index (c : Nat) : Option Nat :=
  if 65 ≤ c ∧ c ≤ 90 then some (c - 65)
  else if 97 ≤ c ∧ c ≤ 122 then some (c - 97 + 26)
  else if 48 ≤ c ∧ c ≤ 57 then some (c - 48 + 52)
  else if c = 43 then some 62
  else if c = 47 then some 63
  else none

/-- Base64-encode a byte list, with `=` (code 61) padding, exactly as
`Buffer.from(payload).toString('base64')` does. -/
def base64Encode : List Nat → List Nat
  | [] => []
  | [b0] => [b64Char (b0 / 4), b64Char (b0 % 4 * 16), 61, 61]
  | [b0, b1] => [b64Char (b0 / 4), b64Char (b0 % 4 * 16 + b1 / 16), b64Char (b1 % 16 * 4), 61]
  | b0 :: b1 :: b2 :: rest =>
      b64Char (b0 / 4) :: b64Char (b0 % 4 * 16 + b1 / 16) ::
        b64Char (b1 % 16 * 4 + b2 / 64) :: b64Char (b2 % 64) :: base64Encode rest

/-- Base64-decode a byte list (padding accepted only in the final quantum). -/
def base64Decode : List Nat → Option (List Nat)
  | [] => some []
  | c0 :: c1 :: c2 :: c3 :: rest =>
      if rest = [] then
        if c3 = 61 then
          if c2 = 61 then do
            let s0 ← b64Index c0
            let s1 ← b64Index c1
            pure [s0 * 4 + s1 / 16]
          else do
            let s0 ← b64Index c0
            let s1 ← b64Index c1
            let s2 ← b64Index c2
            pure [s0 * 4 + s1 / 16, s1 % 16 * 16 + s2 / 4]
        else do
          let s0 ← b64Index c0
          let s1 ← b64Index c1
          let s2 ← b64Index c2
          let s3 ← b64Index c3
          pure [s0 * 4 + s1 / 16, s1 % 16 * 16 + s2 / 4, s2 % 4 * 64 + s3]
      else do
        let s0 ← b64Index c0
        let s1 ← b64Index c1
        let s2 ← b64Index c2
        let s3 ← b64Index c3
        let tail ← base64Decode rest
        pure ((s0 * 4 + s1 / 16) :: (s1 % 16 * 16 + s2 / 4) :: (s2 % 4 * 64 + s3) :: tail)
  | _ => none

theorem b64Index_b64Char : ∀ i < 64, b64Index (b64Char i) = some i := by decide

theorem b64Char_lt_128 : ∀ i < 64, b64Char i < 128 := by decide

theorem b64Char_ne_61 : ∀ i < 64, b64Char i ≠ 61 := by decide

theorem base64Encode_ne_nil : ∀ bs : List Nat, bs ≠ [] → base64Encode bs ≠ [] := by
  intro bs h
  match bs with
  | [b0] => simp [base64Encode]
  | [b0, b1] => simp [base64Encode]
  | b0 :: b1 :: b2 :: rest => simp [base64Encode]

theorem base64Decode_encode :
    ∀ bs : List Nat, (∀ b ∈ bs, b < 256) → base64Decode (base64Encode bs) = some bs := by
  intro bs
  induction bs using base64Encode.induct with
  | case1 =>
      intro _; rfl
  | case2 b0 =>
      intro h
      have hb0 := h b0 (by simp)
      have e0 := b64Index_b64Char (b0 / 4) (by omega)
      have e1 := b64Index_b64Char (b0 % 4 * 16) (by omega)
      simp [base64Encode, base64Decode, e0, e1]
      omega
  | case3 b0 b1 =>
      intro h
      have hb0 := h b0 (by simp)
      have hb1 := h b1 (by simp)
      have e0 := b64Index_b64Char (b0 / 4) (by omega)
      have e1 := b64Index_b64Char (b0 % 4 * 16 + b1 / 16) (by omega)
      have e2 := b64Index_b64Char (b1 % 16 * 4) (by omega)
      have ne2 := b64Char_ne_61 (b1 % 16 * 4) (by omega)
      simp [base64Encode, base64Decode, e0, e1, e2, ne2]
      omega
  | case4 b0 b1 b2 rest ih =>
      intro h
      have hb0 := h b0 (by simp)
      have hb1 := h b1 (by simp)
      have hb2 := h b2 (by simp)
      have hrest : ∀ b ∈ rest, b < 256 := fun b hb => h b (by simp [hb])
      have e0 := b64Index_b64Char (b0 / 4) (by omega)
      have e1 := b64Index_b64Char (b0 % 4 * 16 + b1 / 16) (by omega)
      have e2 := b64Index_b64Char (b1 % 16 * 4 + b2 / 64) (by omega)
      have e3 := b64Index_b64Char (b2 % 64) (by omega)
      have ne3 := b64Char_ne_61 (b2 % 64) (by omega)
      have h1 : b0 / 4 * 4 + (b0 % 4 * 16 + b1 / 16) / 16 = b0 := by omega
      have h2 : (b0 % 4 * 16 + b1 / 16) % 16 * 16 + (b1 % 16 * 4 + b2 / 64) / 4 = b1 := by omega
      have h3 : (b1 % 16 * 4 + b2 / 64) % 4 * 64 + b2 % 64 = b2 := by omega
      by_cases hr : rest = []
      · subst hr
        simp [base64Encode, base64Decode, e0, e1, e2, e3, ne3, h1, h2, h3]
      · have henc := base64Encode_ne_nil rest hr
        have htail := ih hrest
        simp only [base64Encode]
        rw [base64Decode]
        simp [henc, e0, e1, e2, e3, htail, h1, h2, h3]

/-! ## The JSON envelope `{"files":{<name>:<base64>, ...}}` (JSON.stringify / parsing)

Only the fragment of JSON that `JSON.stringify({ files: filesObj })` produces
for a string-to-string object is modelled: an object with one key `files`
whose value is an object of string members, property order preserved.
Strings are escaped exactly as `JSON.stringify` escapes them: `"` and `\`
get a backslash escape, control characters get `\b`, `\t`, `\n`, `\f`, `\r`
or `\u00XX` (lowercase hex), everything else is copied verbatim. -/

/-- Lowercase hex digit for a value `< 16` (as `JSON.stringify` emits). -/
def hexDigit (d : Nat) : Nat :=
  if d < 10 then 48 + d else 97 + (d - 10)

/-- Inverse of `hexDigit`. -/
def unhexDigit (c : Nat) : Option Nat :=
  if 48 ≤ c ∧ c ≤ 57 then some (c - 48)
  else if 97 ≤ c ∧ c ≤ 102 then some (c - 97 + 10)
  else none

/-- `JSON.stringify` escaping of one character (byte code). -/
def escapeChar (c : Nat) : List Nat :=
  if c = 34 then [92, 34]
  else if c = 92 then [92, 92]
  else if c = 8 then [92, 98]
  else if c = 9 then [92, 116]
  else if c = 10 then [92, 110]
  else if c = 12 then [92, 102]
  else if c = 13 then [92, 114]
  else if c < 32 then [92, 117, 48, 48, hexDigit (c / 16), hexDigit (c % 16)]
  else [c]

def escapeString (s : List Nat) : List Nat :=
  s.flatMap escapeChar

/-- A JSON string literal: quote, escaped body, quote. -/
def quoteStr (s : List Nat) : List Nat :=
  34 :: escapeString s ++ [34]

/-- One `"key":"value"` member. -/
def jsonMember (kv : List Nat × List Nat) : List Nat :=
  quoteStr kv.1 ++ 58 :: quoteStr kv.2

/-- Join serialized members with commas, as `JSON.stringify` does. -/
def joinComma : List (List Nat) → List Nat
  | [] => []
  | [m] => m
  | m :: ms => m ++ 44 :: joinComma ms

/-- `JSON.stringify` of a string-to-string object (insertion order kept). -/
def stringifyObject (l : List (List Nat × List Nat)) : List Nat :=
  123 :: joinComma (l.map jsonMember) ++ [125]

/-- The byte list of the key `files`. -/
def filesKey : List Nat := [102, 105, 108, 101, 115]

/-- `JSON.stringify({ files: filesObj })`, the token payload of the source
(lines 245 and 372 of src/index.js). -/
def stringifyEnvelope (l : List (List Nat × List Nat)) : List Nat :=
  123 :: quoteStr filesKey ++ 58 :: stringifyObject l ++ [125]

/-- Decode a simple (single-letter) escape character. -/
def unescapeChar (e : Nat) : Option Nat :=
  if e = 34 then some 34
  else if e = 92 then some 92
  else if e = 98 then some 8
  else if e = 116 then some 9
  else if e = 110 then some 10
  else if e = 102 then some 12
  else if e = 114 then some 13
  else none

/-- Parse a JSON string body up to and including the closing quote,
returning the unescaped contents and the remaining input. -/
def parseStringBody : List Nat → Option (List Nat × List Nat)
  | [] => none
  | c :: rest =>
      if c = 34 then some ([], rest)
      else if c = 92 then
        match rest with
        | 117 :: 48 :: 48 :: h1 :: h2 :: rest2 => do
            let d1 ← unhexDigit h1
            let d2 ← unhexDigit h2
            let (s, r) ← parseStringBody rest2
            pure ((d1 * 16 + d2) :: s, r)
        | e :: rest2 => do
            let c2 ← unescapeChar e
            let (s, r) ← parseStringBody rest2
            pure (c2 :: s, r)
        | [] => none
      else if 32 ≤ c then do
        let (s, r) ← parseStringBody rest
        pure (c :: s, r)
      else none

/-- Parse a JSON string literal (expects the opening quote). -/
def parseString : List Nat → Option (List Nat × List Nat)
  | [] => none
  | c :: rest => if c = 34 then parseStringBody rest else none

/-- Parse the members of a string-to-string object, the opening `{` already
consumed, up to and including the closing `}`; fuelled. -/
def parseObjectBody : Nat → List Nat → Option (List (List Nat × List Nat) × List Nat)
  | 0, _ => none
  | _ + 1, 125 :: rest => some ([], rest)
  | fuel + 1, l => do
      let (k, r1) ← parseString l
      match r1 with
      | 58 :: r2 => do
          let (v, r3) ← parseString r2
          match r3 with
          | 44 :: r4 => do
              let (ms, r5) ← parseObjectBody fuel r4
              pure ((k, v) :: ms, r5)
          | 125 :: r4 => pure ([(k, v)], r4)
          | _ => none
      | _ => none

/-- Parse the full token payload `{"files":{...}}`; the whole input must be
consumed. -/
def parseEnvelope (l : List Nat) : Option (List (List Nat × List Nat)) :=
  match l with
  | 123 :: rest =>
      match parseString rest with
      | some (k, 58 :: 123 :: rest2) =>
          if k = filesKey then
            match parseObjectBody (rest2.length + 1) rest2 with
            | some (ms, [125]) => some ms
            | _ => none
          else none
      | _ => none
  | _ => none

theorem unhexDigit_hexDigit : ∀ d < 16, unhexDigit (hexDigit d) = some d := by decide

theorem quoteStr_append (s X : List Nat) :
    quoteStr s ++ X = 34 :: (escapeString s ++ 34 :: X) := by
  simp [quoteStr]

theorem parseStringBody_escapeChar (c : Nat) (hc : c < 128) (E s r : List Nat)
    (hE : parseStringBody E = some (s, r)) :
    parseStringBody (escapeChar c ++ E) = some (c :: s, r) := by
  by_cases h34 : c = 34
  · subst h34
    show parseStringBody (92 :: 34 :: E) = _
    rw [parseStringBody.eq_def]; simp [unescapeChar, hE]
  by_cases h92 : c = 92
  · subst h92
    show parseStringBody (92 :: 92 :: E) = _
    rw [parseStringBody.eq_def]; simp [unescapeChar, hE]
  by_cases h8 : c = 8
  · subst h8
    show parseStringBody (92 :: 98 :: E) = _
    rw [parseStringBody.eq_def]; simp [unescapeChar, hE]
  by_cases h9 : c = 9
  · subst h9
    show parseStringBody (92 :: 116 :: E) = _
    rw [parseStringBody.eq_def]; simp [unescapeChar, hE]
  by_cases h10 : c = 10
  · subst h10
    show parseStringBody (92 :: 110 :: E) = _
    rw [parseStringBody.eq_def]; simp [unescapeChar, hE]
  by_cases h12 : c = 12
  · subst h12
    show parseStringBody (92 :: 102 :: E) = _
    rw [parseStringBody.eq_def]; simp [unescapeChar, hE]
  by_cases h13 : c = 13
  · subst h13
    show parseStringBody (92 :: 114 :: E) = _
    rw [parseStringBody.eq_def]; simp [unescapeChar, hE]
  by_cases hctl : c < 32
  · have e1 := unhexDigit_hexDigit (c / 16) (by omega)
    have e2 := unhexDigit_hexDigit (c % 16) (by omega)
    have hrec : c / 16 * 16 + c % 16 = c := by omega
    simp only [escapeChar, h34, h92, h8, h9, h10, h12, h13, hctl, if_false, if_true,
      ite_false, ite_true, List.cons_append, List.nil_append]
    rw [parseStringBody.eq_def]
    simp [e1, e2, hE, hrec]
  · have hge : 32 ≤ c := by omega
    simp only [escapeChar, h34, h92, h8, h9, h10, h12, h13, hctl, if_false, if_true,
      ite_false, ite_true, List.cons_append, List.nil_append]
    rw [parseStringBody.eq_def]
    simp [h34, h92, hge, hE]

theorem parseStringBody_escape :
    ∀ s : List Nat, (∀ c ∈ s, c < 128) → ∀ rest,
      parseStringBody (escapeString s ++ 34 :: rest) = some (s, rest) := by
  intro s
  induction s with
  | nil =>
      intro _ rest
      show parseStringBody (34 :: rest) = _
      rw [parseStringBody.eq_def]; simp
  | cons c t ih =>
      intro h rest
      have hc : c < 128 := h c (by simp)
      have ht : ∀ x ∈ t, x < 128 := fun x hx => h x (by simp [hx])
      have ihr := ih ht rest
      have step := parseStringBody_escapeChar c hc (escapeString t ++ 34 :: rest) t rest ihr
      simpa [escapeString, List.append_assoc] using step

theorem parseString_quote (s : List Nat) (hs : ∀ c ∈ s, c < 128) (rest : List Nat) :
    parseString (quoteStr s ++ rest) = some (s, rest) := by
  rw [quoteStr_append, parseString.eq_def]
  simp [parseStringBody_escape s hs rest]

theorem parseObjectBody_joinComma :
    ∀ ms : List (List Nat × List Nat),
      (∀ kv ∈ ms, (∀ c ∈ kv.1, c < 128) ∧ (∀ c ∈ kv.2, c < 128)) →
      ∀ fuel, ms.length + 1 ≤ fuel → ∀ rest,
        parseObjectBody fuel (joinComma (ms.map jsonMember) ++ 125 :: rest) =
          some (ms, rest) := by
  intro ms
  induction ms with
  | nil =>
      intro _ fuel hfuel rest
      cases fuel with
      | zero => omega
      | succ f => simp [joinComma, parseObjectBody]
  | cons kv tl ih =>
      intro h fuel hfuel rest
      have hk : ∀ c ∈ kv.1, c < 128 := (h kv (by simp)).1
      have hv : ∀ c ∈ kv.2, c < 128 := (h kv (by simp)).2
      have htl : ∀ x ∈ tl, (∀ c ∈ x.1, c < 128) ∧ (∀ c ∈ x.2, c < 128) :=
        fun x hx => h x (by simp [hx])
      cases fuel with
      | zero => omega
      | succ f =>
        cases tl with
        | nil =>
            have pk := parseString_quote kv.1 hk (58 :: (quoteStr kv.2 ++ 125 :: rest))
            have pv := parseString_quote kv.2 hv (125 :: rest)
            simp only [quoteStr_append, List.append_assoc, List.cons_append] at pk pv
            rw [parseObjectBody.eq_def]
            simp only [List.map_cons, List.map_nil, joinComma, jsonMember,
              List.append_assoc, List.cons_append, List.nil_append, quoteStr_append]
            simp [pk, pv]
        | cons kv2 tl2 =>
            have hlen : (kv2 :: tl2).length + 1 ≤ f := by
              simp only [List.length_cons] at hfuel ⊢; omega
            have ihr := ih htl f hlen rest
            generalize hJ :
              joinComma (List.map jsonMember (kv2 :: tl2)) ++ 125 :: rest = J at ihr
            have pk := parseString_quote kv.1 hk (58 :: (quoteStr kv.2 ++ 44 :: J))
            have pv := parseString_quote kv.2 hv (44 :: J)
            simp only [quoteStr_append, List.append_assoc, List.cons_append] at pk pv
            have hjoin : joinComma (List.map jsonMember (kv :: kv2 :: tl2)) ++ 125 :: rest =
                jsonMember kv ++ 44 :: J := by
              rw [← hJ]
              simp [joinComma, List.append_assoc]
            rw [parseObjectBody.eq_def, hjoin]
            simp only [jsonMember, List.append_assoc, List.cons_append, quoteStr_append]
            simp [pk, pv, ihr]

theorem quoteStr_length_ge (s : List Nat) : 2 ≤ (quoteStr s).length := by
  simp [quoteStr]

theorem jsonMember_length_ge (kv : List Nat × List Nat) : 5 ≤ (jsonMember kv).length := by
  have h1 := quoteStr_length_ge kv.1
  have h2 := quoteStr_length_ge kv.2
  simp only [jsonMember, List.length_append, List.length_cons, quoteStr] at h1 h2 ⊢
  omega

theorem joinComma_length_ge :
    ∀ l : List (List Nat), (∀ m ∈ l, 5 ≤ m.length) → l.length ≤ (joinComma l).length := by
  intro l
  induction l with
  | nil => intro _; simp [joinComma]
  | cons m tl ih =>
      intro h
      have hm : 5 ≤ m.length := h m (by simp)
      have htl : ∀ x ∈ tl, 5 ≤ x.length := fun x hx => h x (by simp [hx])
      cases tl with
      | nil => simp only [joinComma, List.length_cons, List.length_nil]; omega
      | cons m2 tl2 =>
          have := ih htl
          simp only [joinComma, List.length_append, List.length_cons] at this ⊢
          omega

theorem filesKey_ascii : ∀ c ∈ filesKey, c < 128 := by decide

theorem parseEnvelope_stringify (ms : List (List Nat × List Nat))
    (h : ∀ kv ∈ ms, (∀ c ∈ kv.1, c < 128) ∧ (∀ c ∈ kv.2, c < 128)) :
    parseEnvelope (stringifyEnvelope ms) = some ms := by
  have hjc : ms.length ≤ (joinComma (ms.map jsonMember)).length := by
    have := joinComma_length_ge (ms.map jsonMember) (by
      intro m hm
      rcases List.mem_map.mp hm with ⟨kv, _, rfl⟩
      exact jsonMember_length_ge kv)
    simpa using this
  have pk := parseString_quote filesKey filesKey_ascii
    (58 :: (stringifyObject ms ++ [125]))
  rw [quoteStr_append] at pk
  have hbody := parseObjectBody_joinComma ms h
    ((joinComma (ms.map jsonMember)).length + 3)
    (by omega) [125]
  rw [parseEnvelope.eq_def]
  simp only [stringifyEnvelope, stringifyObject, List.cons_append, List.append_assoc,
    List.nil_append, quoteStr_append]
  simp only [stringifyObject, List.cons_append, List.append_assoc, List.nil_append] at pk
  simp only [pk]
  simp only [List.length_append, List.length_cons, List.cons_append, List.nil_append] at hbody ⊢
  simp [hbody]

/-! ### All payload bytes are ASCII (so UTF-8 encoding is the identity and
base64 decoding of the payload succeeds) -/

theorem hexDigit_lt_128 : ∀ d < 16, hexDigit d < 128 := by decide

theorem escapeChar_lt_128 (c : Nat) (hc : c < 128) : ∀ x ∈ escapeChar c, x < 128 := by
  intro x hx
  unfold escapeChar at hx
  split_ifs at hx with h1 h2 h3 h4 h5 h6 h7 h8
  · simp at hx; omega
  · simp at hx; omega
  · simp at hx; omega
  · simp at hx; omega
  · simp at hx; omega
  · simp at hx; omega
  · simp at hx; omega
  · have d1 := hexDigit_lt_128 (c / 16) (by omega)
    have d2 := hexDigit_lt_128 (c % 16) (by omega)
    simp at hx
    rcases hx with rfl | rfl | rfl | rfl | rfl
    · omega
    · omega
    · omega
    · exact d1
    · exact d2
  · simp at hx; omega

theorem escapeString_lt_128 (s : List Nat) (hs : ∀ c ∈ s, c < 128) :
    ∀ x ∈ escapeString s, x < 128 := by
  intro x hx
  rcases List.mem_flatMap.mp hx with ⟨c, hc, hxc⟩
  exact escapeChar_lt_128 c (hs c hc) x hxc

theorem quoteStr_lt_128 (s : List Nat) (hs : ∀ c ∈ s, c < 128) :
    ∀ x ∈ quoteStr s, x < 128 := by
  intro x hx
  rw [quoteStr] at hx
  rcases List.mem_append.mp hx with hx | hx
  · rcases List.mem_cons.mp hx with rfl | hx
    · omega
    · exact escapeString_lt_128 s hs x hx
  · rcases List.mem_singleton.mp hx with rfl
    omega

theorem jsonMember_lt_128 (kv : List Nat × List Nat)
    (hk : ∀ c ∈ kv.1, c < 128) (hv : ∀ c ∈ kv.2, c < 128) :
    ∀ x ∈ jsonMember kv, x < 128 := by
  intro x hx
  rw [jsonMember] at hx
  rcases List.mem_append.mp hx with hx | hx
  · exact quoteStr_lt_128 kv.1 hk x hx
  · rcases List.mem_cons.mp hx with rfl | hx
    · omega
    · exact quoteStr_lt_128 kv.2 hv x hx

theorem joinComma_mem :
    ∀ l : List (List Nat), ∀ x ∈ joinComma l, x = 44 ∨ ∃ m ∈ l, x ∈ m := by
  intro l
  induction l with
  | nil => intro x hx; simp [joinComma] at hx
  | cons m tl ih =>
      intro x hx
      cases tl with
      | nil =>
          simp only [joinComma] at hx
          exact Or.inr ⟨m, by simp, hx⟩
      | cons m2 tl2 =>
          simp only [joinComma, List.mem_append, List.mem_cons] at hx
          rcases hx with hx | rfl | hx
          · exact Or.inr ⟨m, by simp, hx⟩
          · exact Or.inl rfl
          · rcases ih x hx with h44 | ⟨m3, hm3, hxm3⟩
            · exact Or.inl h44
            · exact Or.inr ⟨m3, by simp [hm3], hxm3⟩

theorem stringifyEnvelope_lt_128 (ms : List (List Nat × List Nat))
    (h : ∀ kv ∈ ms, (∀ c ∈ kv.1, c < 128) ∧ (∀ c ∈ kv.2, c < 128)) :
    ∀ b ∈ stringifyEnvelope ms, b < 128 := by
  intro b hb
  rw [stringifyEnvelope] at hb
  rcases List.mem_append.mp hb with hb | hb
  · rcases List.mem_cons.mp hb with rfl | hb
    · omega
    rcases List.mem_append.mp hb with hb | hb
    · exact quoteStr_lt_128 filesKey filesKey_ascii b hb
    rcases List.mem_cons.mp hb with rfl | hb
    · omega
    rw [stringifyObject] at hb
    rcases List.mem_append.mp hb with hb | hb
    · rcases List.mem_cons.mp hb with rfl | hb
      · omega
      · rcases joinComma_mem (ms.map jsonMember) b hb with rfl | ⟨m, hm, hbm⟩
        · omega
        · rcases List.mem_map.mp hm with ⟨kv, hkv, rfl⟩
          exact jsonMember_lt_128 kv (h kv hkv).1 (h kv hkv).2 b hbm
    · rcases List.mem_singleton.mp hb with rfl
      omega
  · rcases List.mem_singleton.mp hb with rfl
    omega

theorem base64Encode_lt_128 :
    ∀ bs : List Nat, (∀ b ∈ bs, b < 256) → ∀ c ∈ base64Encode bs, c < 128 := by
  intro bs
  induction bs using base64Encode.induct with
  | case1 => intro _ c hc; simp [base64Encode] at hc
  | case2 b0 =>
      intro h c hc
      have hb0 := h b0 (by simp)
      have k1 := b64Char_lt_128 (b0 / 4) (by omega)
      have k2 := b64Char_lt_128 (b0 % 4 * 16) (by omega)
      simp only [base64Encode, List.mem_cons, List.not_mem_nil, or_false] at hc
      rcases hc with rfl | rfl | rfl | rfl
      · exact k1
      · exact k2
      · omega
      · omega
  | case3 b0 b1 =>
      intro h c hc
      have hb0 := h b0 (by simp)
      have hb1 := h b1 (by simp)
      have k1 := b64Char_lt_128 (b0 / 4) (by omega)
      have k2 := b64Char_lt_128 (b0 % 4 * 16 + b1 / 16) (by omega)
      have k3 := b64Char_lt_128 (b1 % 16 * 4) (by omega)
      simp only [base64Encode, List.mem_cons, List.not_mem_nil, or_false] at hc
      rcases hc with rfl | rfl | rfl | rfl
      · exact k1
      · exact k2
      · exact k3
      · omega
  | case4 b0 b1 b2 rest ih =>
      intro h c hc
      have hb0 := h b0 (by simp)
      have hb1 := h b1 (by simp)
      have hb2 := h b2 (by simp)
      have hrest : ∀ b ∈ rest, b < 256 := fun b hb => h b (by simp [hb])
      have k1 := b64Char_lt_128 (b0 / 4) (by omega)
      have k2 := b64Char_lt_128 (b0 % 4 * 16 + b1 / 16) (by omega)
      have k3 := b64Char_lt_128 (b1 % 16 * 4 + b2 / 64) (by omega)
      have k4 := b64Char_lt_128 (b2 % 64) (by omega)
      simp only [base64Encode, List.mem_cons] at hc
      rcases hc with rfl | rfl | rfl | rfl | hc
      · exact k1
      · exact k2
      · exact k3
      · exact k4
      · exact ih hrest c hc

/-! ## The credential directory and `serializeAuthDir` (src/index.js lines 135-151)

A filesystem is a list of nodes, each carrying its path (a list of name
components, names being byte lists), whether `stat` reports it as a regular
file, and its byte content.  `readdir` lists the direct children of a
directory, exactly as `fsPromises.readdir` does (no recursion). -/

structure FsNode where
  path : List (List Nat)
  isFile : Bool
  content : List Nat
deriving DecidableEq, Repr

/-- Direct children of `dir`: nodes one component below `dir`. -/
def readdir (fs : List FsNode) (dir : List (List Nat)) : List FsNode :=
  fs.filter (fun n => n.path.length == dir.length + 1 && dir.isPrefixOf n.path)

/-- The filename of a node (its last path component). -/
def entryName (n : FsNode) : List Nat :=
  n.path.getLastD []

/-- `serializeAuthDir` (src/index.js lines 135-151): map every regular file
directly inside `dir` to the base64 of its content.  `readable = false`
models `fsPromises.readdir` throwing (missing or unreadable directory): the
`catch` logs a warning and the accumulated (empty) object is returned.
Returns the mapping together with whether the warning was logged. -/
def serializeAuthDir (readable : Bool) (fs : List FsNode) (dir : List (List Nat)) :
    List (List Nat × List Nat) × Bool :=
  if readable then
    (((readdir fs dir).filter (·.isFile)).map fun n => (entryName n, base64Encode n.content),
      false)
  else ([], true)

/-! ## The session token (src/index.js lines 244-246 and 371-373) -/

/-- The ASCII bytes of the literal `SILA_`. -/
def SILA : List Nat := [83, 73, 76, 65, 95]

/-- `'SILA_' + Buffer.from(JSON.stringify({ files: filesObj })).toString('base64')`. -/
def tokenOf (fs : List FsNode) (dir : List (List Nat)) : List Nat :=
  SILA ++ base64Encode (stringifyEnvelope (serializeAuthDir true fs dir).1)

/-- Base64-decode every file entry of a parsed envelope. -/
def decodeFiles : List (List Nat × List Nat) → Option (List (List Nat × List Nat))
  | [] => some []
  | (k, v) :: tl => do
      let d ← base64Decode v
      let rest ← decodeFiles tl
      pure ((k, d) :: rest)

/-- The decoding procedure the spec describes: strip the `SILA_` prefix,
base64-decode, parse the envelope, base64-decode each file entry. -/
def decodeToken (t : List Nat) : Option (List (List Nat × List Nat)) :=
  if SILA.isPrefixOf t then
    match base64Decode (t.drop SILA.length) with
    | some payload =>
        match parseEnvelope payload with
        | some files => decodeFiles files
        | none => none
    | none => none
  else none

theorem decodeFiles_encoded :
    ∀ l : List FsNode, (∀ n ∈ l, ∀ b ∈ n.content, b < 256) →
      decodeFiles (l.map fun n => (entryName n, base64Encode n.content)) =
        some (l.map fun n => (entryName n, n.content)) := by
  intro l
  induction l with
  | nil => intro _; rfl
  | cons n tl ih =>
      intro h
      have hn : ∀ b ∈ n.content, b < 256 := h n (by simp)
      have htl : ∀ x ∈ tl, ∀ b ∈ x.content, b < 256 := fun x hx => h x (by simp [hx])
      simp only [List.map_cons, decodeFiles, base64Decode_encode n.content hn,
        ih htl, Option.bind_eq_bind, Option.some_bind, Option.pure_def]

theorem readdir_path (fs : List FsNode) (dir : List (List Nat)) (n : FsNode)
    (hn : n ∈ readdir fs dir) : n ∈ fs ∧ n.path = dir ++ [entryName n] := by
  rw [readdir, List.mem_filter] at hn
  obtain ⟨hmem, hcond⟩ := hn
  refine ⟨hmem, ?_⟩
  simp only [Bool.and_eq_true, beq_iff_eq] at hcond
  obtain ⟨hlen, hpre⟩ := hcond
  rw [ List.isPrefixOf_iff_prefix] at hpre
  obtain ⟨t, ht⟩ := hpre
  have htlen : t.length = 1 := by
    have := congrArg List.length ht
    simp only [List.length_append] at this
    omega
  obtain ⟨x, rfl⟩ : ∃ x, t = [x] := by
    cases t with
    | nil => simp at htlen
    | cons a tl =>
        cases tl with
        | nil => exact ⟨a, rfl⟩
        | cons b tl2 => simp at htlen
  have hpath : n.path = dir ++ [x] := ht.symm
  have : entryName n = x := by
    rw [entryName, hpath, List.getLastD_concat]
  rw [this, hpath]

/-- C9: `serializeAuthDir` on a missing or unreadable directory returns the
empty mapping and logs a warning instead of failing; on a readable
directory it produces exactly one entry per regular file directly inside
the directory (base64 of its content), and never recurses into
subdirectories. -/
theorem serializeAuthDir_contract (fs : List FsNode) (dir : List (List Nat)) :
    serializeAuthDir false fs dir = ([], true) ∧
    (serializeAuthDir true fs dir).2 = false ∧
    (∀ name v, (name, v) ∈ (serializeAuthDir true fs dir).1 ↔
      ∃ n ∈ fs, n.path = dir ++ [name] ∧ n.isFile = true ∧ v = base64Encode n.content) := by
  refine ⟨rfl, rfl, ?_⟩
  intro name v
  constructor
  · intro hmem
    simp only [serializeAuthDir, if_true, List.mem_map] at hmem
    obtain ⟨n, hn, heq⟩ := hmem
    rw [List.mem_filter] at hn
    obtain ⟨hnr, hfile⟩ := hn
    obtain ⟨hmemfs, hpath⟩ := readdir_path fs dir n hnr
    obtain ⟨rfl, rfl⟩ : entryName n = name ∧ base64Encode n.content = v := by
      constructor
      · exact congrArg Prod.fst heq
      · exact congrArg Prod.snd heq
    exact ⟨n, hmemfs, hpath, by simpa using hfile, rfl⟩
  · rintro ⟨n, hmemfs, hpath, hfile, rfl⟩
    simp only [serializeAuthDir, if_true, List.mem_map]
    refine ⟨n, ?_, ?_⟩
    · rw [List.mem_filter]
      refine ⟨?_, by simpa using hfile⟩
      rw [readdir, List.mem_filter]
      refine ⟨hmemfs, ?_⟩
      simp only [Bool.and_eq_true, beq_iff_eq]
      constructor
      · rw [hpath]; simp
      · rw [ List.isPrefixOf_iff_prefix, hpath]
        exact List.prefix_append dir [name]
    · have : entryName n = name := by
        rw [entryName, hpath, List.getLastD_concat]
      rw [this]

/-- C2: for every credential directory, the produced token is the literal
`SILA_` followed by the base64 of the JSON envelope over exactly the
regular files directly inside the directory, and stripping the prefix,
base64-decoding, parsing the envelope and base64-decoding each entry
recovers exactly those files with their original byte contents. -/
theorem token_roundtrip (fs : List FsNode) (dir : List (List Nat))
    (hn : ∀ n ∈ fs, ∀ c ∈ entryName n, c < 128)
    (hb : ∀ n ∈ fs, ∀ b ∈ n.content, b < 256) :
    tokenOf fs dir =
      SILA ++ base64Encode (stringifyEnvelope (serializeAuthDir true fs dir).1) ∧
    decodeToken (tokenOf fs dir) =
      some (((readdir fs dir).filter (·.isFile)).map fun n => (entryName n, n.content)) := by
  refine ⟨rfl, ?_⟩
  have hsub : ∀ n ∈ (readdir fs dir).filter (·.isFile), n ∈ fs := by
    intro n hn2
    rw [List.mem_filter] at hn2
    exact (readdir_path fs dir n hn2.1).1
  have hfiles : (serializeAuthDir true fs dir).1 =
      ((readdir fs dir).filter (·.isFile)).map
        (fun n => (entryName n, base64Encode n.content)) := by
    simp [serializeAuthDir]
  have hascii : ∀ kv ∈ (serializeAuthDir true fs dir).1,
      (∀ c ∈ kv.1, c < 128) ∧ (∀ c ∈ kv.2, c < 128) := by
    intro kv hkv
    rw [hfiles, List.mem_map] at hkv
    obtain ⟨n, hn2, rfl⟩ := hkv
    exact ⟨hn n (hsub n hn2), base64Encode_lt_128 n.content (hb n (hsub n hn2))⟩
  have hpayload : ∀ b ∈ stringifyEnvelope (serializeAuthDir true fs dir).1, b < 256 := by
    intro b hb2
    have := stringifyEnvelope_lt_128 (serializeAuthDir true fs dir).1 hascii b hb2
    omega
  rw [tokenOf, decodeToken]
  have hpre : SILA.isPrefixOf
      (SILA ++ base64Encode (stringifyEnvelope (serializeAuthDir true fs dir).1)) = true := by
    rw [ List.isPrefixOf_iff_prefix]
    exact List.prefix_append _ _
  rw [if_pos hpre, List.drop_left]
  simp only [base64Decode_encode _ hpayload, parseEnvelope_stringify _ hascii]
  rw [hfiles, decodeFiles_encoded _ (fun n hn2 => hb n (hsub n hn2))]

/-- A concrete filesystem: a regular file `a` with bytes (0, 255, 10), a
subdirectory `b`, and a regular file `b/c` nested one level deeper. -/
def fsW : List FsNode :=
  [⟨[[97]], true, [0, 255, 10]⟩, ⟨[[98]], false, []⟩, ⟨[[98], [99]], true, [1]⟩]

theorem token_roundtrip_witness :
    ((∀ n ∈ fsW, ∀ c ∈ entryName n, c < 128) ∧ (∀ n ∈ fsW, ∀ b ∈ n.content, b < 256)) ∧
    (tokenOf fsW [] =
      SILA ++ base64Encode (stringifyEnvelope (serializeAuthDir true fsW []).1) ∧
    decodeToken (tokenOf fsW []) =
      some (((readdir fsW []).filter (·.isFile)).map fun n => (entryName n, n.content))) :=
  ⟨⟨by decide, by decide⟩, token_roundtrip fsW [] (by decide) (by decide)⟩

/-! ## The in-memory session lifecycle (src/index.js lines 24-133, 186-403)

`sessions` and `activeByPhone` are the two in-memory maps of the source
(lines 24 and 27), modelled as functions to `Option`.  Credential
directories are named by the session id (`path.join(__dirname, 'auth',
sessionId)`), so the on-disk state is a predicate on session ids.  Session
records carry the presence of each field of the source's session objects;
`authDir = true` means the record holds the directory path.  Each
operation below is the big-step effect of one source code path, with the
cleanup work it initiates applied (the fire-and-forget variant of
`clearSession` is modelled separately for the supersession analysis). -/

abbrev SessionId := Nat
abbrev Phone := Nat

structure Session where
  authDir : Bool
  socket : Bool
  phone : Option Phone
  sse : Bool
  credsSaved : Bool
  idleTimer : Bool
deriving DecidableEq, Repr

structure ServerState where
  sessions : SessionId → Option Session
  activeByPhone : Phone → Option SessionId
  dirExists : SessionId → Bool

def setSession (st : ServerState) (id : SessionId) (v : Option Session) : ServerState :=
  { st with sessions := fun j => if j = id then v else st.sessions j }

def setActive (st : ServerState) (p : Phone) (v : Option SessionId) : ServerState :=
  { st with activeByPhone := fun q => if q = p then v else st.activeByPhone q }

def setDir (st : ServerState) (id : SessionId) (b : Bool) : ServerState :=
  { st with dirExists := fun j => if j = id then b else st.dirExists j }

@[simp] theorem setSession_sessions (st : ServerState) (id : SessionId) (v : Option Session)
    (j : SessionId) : (setSession st id v).sessions j = if j = id then v else st.sessions j := rfl

@[simp] theorem setSession_activeByPhone (st : ServerState) (id : SessionId)
    (v : Option Session) : (setSession st id v).activeByPhone = st.activeByPhone := rfl

@[simp] theorem setSession_dirExists (st : ServerState) (id : SessionId) (v : Option Session) :
    (setSession st id v).dirExists = st.dirExists := rfl

@[simp] theorem setActive_activeByPhone (st : ServerState) (p : Phone) (v : Option SessionId)
    (q : Phone) : (setActive st p v).activeByPhone q = if q = p then v else st.activeByPhone q :=
  rfl

@[simp] theorem setActive_sessions (st : ServerState) (p : Phone) (v : Option SessionId) :
    (setActive st p v).sessions = st.sessions := rfl

@[simp] theorem setActive_dirExists (st : ServerState) (p : Phone) (v : Option SessionId) :
    (setActive st p v).dirExists = st.dirExists := rfl

@[simp] theorem setDir_dirExists (st : ServerState) (id : SessionId) (b : Bool)
    (j : SessionId) : (setDir st id b).dirExists j = if j = id then b else st.dirExists j := rfl

@[simp] theorem setDir_sessions (st : ServerState) (id : SessionId) (b : Bool) :
    (setDir st id b).sessions = st.sessions := rfl

@[simp] theorem setDir_activeByPhone (st : ServerState) (id : SessionId) (b : Bool) :
    (setDir st id b).activeByPhone = st.activeByPhone := rfl

/-- Lines 80-83 / 115-118 / 54-57: delete the phone mapping, but only if it
still points at this session. -/
def clearPhoneMapping (st : ServerState) (sessionId : SessionId) (s : Session) : ServerState :=
  match s.phone with
  | some p => if st.activeByPhone p = some sessionId then setActive st p none else st
  | none => st

@[simp] theorem clearPhoneMapping_sessions (st : ServerState) (id : SessionId) (s : Session) :
    (clearPhoneMapping st id s).sessions = st.sessions := by
  unfold clearPhoneMapping
  cases s.phone with
  | none => rfl
  | some p =>
      by_cases h : st.activeByPhone p = some id
      · simp [h]
      · simp [h]

@[simp] theorem clearPhoneMapping_dirExists (st : ServerState) (id : SessionId) (s : Session) :
    (clearPhoneMapping st id s).dirExists = st.dirExists := by
  unfold clearPhoneMapping
  cases s.phone with
  | none => rfl
  | some p =>
      by_cases h : st.activeByPhone p = some id
      · simp [h]
      · simp [h]

/-- `clearSession` (lines 65-85): cancel the idle timer, close the socket,
fire the directory cleanup, drop the phone mapping if it still points
here, delete the registry entry.  In this big-step model the cleanup the
call initiates is applied. -/
def clearSession (sessionId : SessionId) (st : ServerState) : ServerState :=
  match st.sessions sessionId with
  | none => st
  | some s =>
      let st1 := if s.authDir then setDir st sessionId false else st
      let st2 := clearPhoneMapping st1 sessionId s
      setSession st2 sessionId none

/-- `finalizeSession` (lines 88-121): after the bounded credential wait
(modelled separately by `finalizePollCount`), logout, close, await the
directory cleanup, emit `finished` and close the stream, drop the phone
mapping if it still points here, delete the registry entry. -/
def finalizeSession (sessionId : SessionId) (st : ServerState) : ServerState :=
  match st.sessions sessionId with
  | none => st
  | some s =>
      let st1 := if s.authDir then setDir st sessionId false else st
      let st2 := clearPhoneMapping st1 sessionId s
      setSession st2 sessionId none

/-- The idle-timer callback (lines 36-61): if the session still exists,
notify the stream, close the socket, await the directory cleanup, delete
the registry entry, then drop the phone mapping if it still points here. -/
def idleTimerFire (sessionId : SessionId) (st : ServerState) : ServerState :=
  match st.sessions sessionId with
  | none => st
  | some s =>
      let st1 := if s.authDir then setDir st sessionId false else st
      let st2 := setSession st1 sessionId none
      match s.phone with
      | some p => if st2.activeByPhone p = some sessionId then setActive st2 p none else st2
      | none => st2

/-- `startIdleTimer` (lines 31-63): no-op when the id is unknown, otherwise
replaces the session's idle timer. -/
def startIdleTimer (sessionId : SessionId) (st : ServerState) : ServerState :=
  match st.sessions sessionId with
  | none => st
  | some s => setSession st sessionId (some { s with idleTimer := true })

/-- `attachSSEToSession` (lines 123-127): merge with any existing record —
or a fresh empty object — and store the stream reference. -/
def attachSSEToSession (id : SessionId) (st : ServerState) : ServerState :=
  let sess := (st.sessions id).getD
    { authDir := false, socket := false, phone := none, sse := false,
      credsSaved := false, idleTimer := false }
  setSession st id (some { sess with sse := true })

/-- The `req.on('close')` handler of `GET /events/:id` (lines 175-179):
delete only the `sse` field, keep the record. -/
def sseCloseHandler (id : SessionId) (st : ServerState) : ServerState :=
  match st.sessions id with
  | none => st
  | some s => setSession st id (some { s with sse := false })

/-- The `creds.update` handler (lines 203-207 and 313-317): set
`credsSaved` when the session still exists. -/
def credsUpdateHandler (id : SessionId) (st : ServerState) : ServerState :=
  match st.sessions id with
  | none => st
  | some s => setSession st id (some { s with credsSaved := true })

/-- The `POST /qr` setup (lines 188-211): create the directory, register
`{ authDir, socket }`, arm the idle timer. -/
def createQRSession (sessionId : SessionId) (st : ServerState) : ServerState :=
  let st1 := setDir st sessionId true
  let st2 := setSession st1 sessionId
    (some { authDir := true, socket := true, phone := none, sse := false,
            credsSaved := false, idleTimer := false })
  startIdleTimer sessionId st2

/-- Lines 292-322 of the `POST /pair` setup after the supersession check:
create the directory, register `{ authDir, socket, phone }`, record
`activeByPhone`, arm the idle timer. -/
def registerPairSession (sessionId : SessionId) (p : Phone) (st : ServerState) : ServerState :=
  let st1 := setDir st sessionId true
  let st2 := setSession st1 sessionId
    (some { authDir := true, socket := true, phone := some p, sse := false,
            credsSaved := false, idleTimer := false })
  let st3 := setActive st2 p (some sessionId)
  startIdleTimer sessionId st3

/-- The `POST /pair` setup (lines 285-322): clear any active session for
this phone first (lines 286-290), then create and register the new one. -/
def createPairSession (sessionId : SessionId) (p : Phone) (st : ServerState) : ServerState :=
  let st0 := match st.activeByPhone p with
    | some existing => clearSession existing st
    | none => st
  registerPairSession sessionId p st0

inductive Op where
  | createQR (id : SessionId)
  | createPair (id : SessionId) (p : Phone)
  | finalize (id : SessionId)
  | clearOp (id : SessionId)
  | idleFire (id : SessionId)
  | attachSSE (id : SessionId)
  | sseClose (id : SessionId)
  | credsUpdate (id : SessionId)
deriving DecidableEq, Repr

def step (st : ServerState) : Op → ServerState
  | .createQR id => createQRSession id st
  | .createPair id p => createPairSession id p st
  | .finalize id => finalizeSession id st
  | .clearOp id => clearSession id st
  | .idleFire id => idleTimerFire id st
  | .attachSSE id => attachSSEToSession id st
  | .sseClose id => sseCloseHandler id st
  | .credsUpdate id => credsUpdateHandler id st

def initState : ServerState :=
  { sessions := fun _ => none, activeByPhone := fun _ => none, dirExists := fun _ => false }

def run (st : ServerState) (ops : List Op) : ServerState :=
  ops.foldl step st

/-- Session ids come from `randomUUID()`: a create operation always uses an
id that is not currently registered and whose directory does not exist. -/
def freshFor (st : ServerState) : Op → Bool
  | .createQR id => decide (st.sessions id = none) && !st.dirExists id
  | .createPair id _ => decide (st.sessions id = none) && !st.dirExists id
  | _ => true

def wfTrace : ServerState → List Op → Bool
  | _, [] => true
  | st, op :: ops => freshFor st op && wfTrace (step st op) ops

/-- The registry invariant: a credential directory on disk belongs to a
registered session that holds it, and an `activeByPhone` entry points at a
live session registered for that phone. -/
def Inv (st : ServerState) : Prop :=
  (∀ id, st.dirExists id = true → ∃ s, st.sessions id = some s ∧ s.authDir = true) ∧
  (∀ p id, st.activeByPhone p = some id → ∃ s, st.sessions id = some s ∧ s.phone = some p)

theorem clearSession_none (st : ServerState) (id : SessionId)
    (hn : st.sessions id = none) : clearSession id st = st := by
  unfold clearSession
  rw [hn]

theorem clearSession_sessions (st : ServerState) (id : SessionId) (s : Session)
    (hs : st.sessions id = some s) (j : SessionId) :
    (clearSession id st).sessions j = if j = id then none else st.sessions j := by
  unfold clearSession
  rw [hs]
  by_cases ha : s.authDir = true <;> simp [ha]

theorem clearSession_dirExists (st : ServerState) (id : SessionId) (s : Session)
    (hs : st.sessions id = some s) (j : SessionId) :
    (clearSession id st).dirExists j =
      if s.authDir = true ∧ j = id then false else st.dirExists j := by
  unfold clearSession
  rw [hs]
  by_cases ha : s.authDir = true
  · simp only [ha, if_true, setSession_dirExists, clearPhoneMapping_dirExists, setDir_dirExists]
    by_cases hj : j = id
    · simp [hj]
    · simp [hj]
  · simp only [Bool.not_eq_true] at ha
    simp [ha]

theorem clearSession_activeByPhone (st : ServerState) (id : SessionId) (s : Session)
    (hs : st.sessions id = some s) (q : Phone) :
    (clearSession id st).activeByPhone q =
      if s.phone = some q ∧ st.activeByPhone q = some id then none
      else st.activeByPhone q := by
  unfold clearSession clearPhoneMapping
  rw [hs]
  cases hph : s.phone with
  | none =>
      simp only [hph]
      by_cases ha : s.authDir = true <;> simp [ha]
  | some p =>
      simp only [hph]
      by_cases ha : s.authDir = true <;>
      · by_cases hm : st.activeByPhone p = some id
        · by_cases hq : q = p
          · subst hq; simp [ha, hm]
          · have hcond : ¬ (p = q ∧ st.activeByPhone q = some id) := by
              rintro ⟨hpq, _⟩
              exact hq hpq.symm
            simp [ha, hm, hq, hcond]
        · have hcond : ¬ (p = q ∧ st.activeByPhone q = some id) := by
            rintro ⟨hpq, hmq⟩
            subst hpq
            exact hm hmq
          simp [ha, hm, hcond]

theorem finalizeSession_eq_clearSession (st : ServerState) (id : SessionId) :
    finalizeSession id st = clearSession id st := rfl

theorem idleTimerFire_eq_clearSession (st : ServerState) (id : SessionId) :
    idleTimerFire id st = clearSession id st := by
  unfold idleTimerFire clearSession clearPhoneMapping
  cases hs : st.sessions id with
  | none => rfl
  | some s =>
      cases hph : s.phone with
      | none => simp only [hph]
      | some p =>
          by_cases ha : s.authDir = true <;> by_cases hm : st.activeByPhone p = some id <;>
            simp [hph, ha, hm] <;> try rfl

theorem dirExists_false_of_none (st : ServerState) (id : SessionId) (h : Inv st)
    (hn : st.sessions id = none) : st.dirExists id = false := by
  cases hd : st.dirExists id with
  | false => rfl
  | true =>
      obtain ⟨s, hs, _⟩ := h.1 id hd
      rw [hn] at hs
      cases hs

theorem Inv_clearSession (st : ServerState) (id : SessionId) (h : Inv st) :
    Inv (clearSession id st) := by
  cases hs : st.sessions id with
  | none => rw [clearSession_none st id hs]; exact h
  | some s =>
      constructor
      · intro j hj
        rw [clearSession_dirExists st id s hs j] at hj
        split_ifs at hj with hc
        obtain ⟨t, ht, ha⟩ := h.1 j hj
        have hne : j ≠ id := by
          rintro rfl
          rw [hs, Option.some.injEq] at ht
          subst ht
          exact hc ⟨ha, rfl⟩
        rw [clearSession_sessions st id s hs j, if_neg hne]
        exact ⟨t, ht, ha⟩
      · intro p i hp
        rw [clearSession_activeByPhone st id s hs p] at hp
        split_ifs at hp with hc
        obtain ⟨t, ht, hpt⟩ := h.2 p i hp
        have hne : i ≠ id := by
          rintro rfl
          rw [hs, Option.some.injEq] at ht
          subst ht
          exact hc ⟨hpt, hp⟩
        rw [clearSession_sessions st id s hs i, if_neg hne]
        exact ⟨t, ht, hpt⟩

theorem clearSession_post (st : ServerState) (id : SessionId) (h : Inv st) :
    (clearSession id st).dirExists id = false ∧ (clearSession id st).sessions id = none := by
  cases hs : st.sessions id with
  | none =>
      rw [clearSession_none st id hs]
      exact ⟨dirExists_false_of_none st id h hs, hs⟩
  | some s =>
      constructor
      · rw [clearSession_dirExists st id s hs id]
        by_cases ha : s.authDir = true
        · rw [if_pos ⟨ha, rfl⟩]
        · rw [if_neg (by rintro ⟨ha2, _⟩; exact ha ha2)]
          cases hd : st.dirExists id with
          | false => rfl
          | true =>
              obtain ⟨t, ht, hat⟩ := h.1 id hd
              rw [hs, Option.some.injEq] at ht
              subst ht
              exact absurd hat ha
      · rw [clearSession_sessions st id s hs id, if_pos rfl]

theorem Inv_setSession_update (st : ServerState) (id : SessionId) (s s' : Session)
    (hs : st.sessions id = some s) (h : Inv st)
    (hauth : s'.authDir = s.authDir) (hph : s'.phone = s.phone) :
    Inv (setSession st id (some s')) := by
  constructor
  · intro j hj
    simp only [setSession_dirExists] at hj
    obtain ⟨t, ht, ha⟩ := h.1 j hj
    by_cases hje : j = id
    · subst hje
      rw [hs, Option.some.injEq] at ht
      subst ht
      exact ⟨s', by simp, by rw [hauth]; exact ha⟩
    · exact ⟨t, by rw [setSession_sessions, if_neg hje]; exact ht, ha⟩
  · intro p i hp
    simp only [setSession_activeByPhone] at hp
    obtain ⟨t, ht, hpt⟩ := h.2 p i hp
    by_cases hie : i = id
    · subst hie
      rw [hs, Option.some.injEq] at ht
      subst ht
      exact ⟨s', by simp, by rw [hph]; exact hpt⟩
    · exact ⟨t, by rw [setSession_sessions, if_neg hie]; exact ht, hpt⟩

theorem Inv_setSession_insert (st : ServerState) (id : SessionId) (s' : Session)
    (hn : st.sessions id = none) (h : Inv st) :
    Inv (setSession st id (some s')) := by
  constructor
  · intro j hj
    simp only [setSession_dirExists] at hj
    by_cases hje : j = id
    · subst hje
      rw [dirExists_false_of_none st j h hn] at hj
      cases hj
    · obtain ⟨t, ht, ha⟩ := h.1 j hj
      exact ⟨t, by rw [setSession_sessions, if_neg hje]; exact ht, ha⟩
  · intro p i hp
    simp only [setSession_activeByPhone] at hp
    obtain ⟨t, ht, hpt⟩ := h.2 p i hp
    by_cases hie : i = id
    · subst hie; rw [hn] at ht; cases ht
    · exact ⟨t, by rw [setSession_sessions, if_neg hie]; exact ht, hpt⟩

theorem Inv_startIdleTimer (st : ServerState) (id : SessionId) (h : Inv st) :
    Inv (startIdleTimer id st) := by
  unfold startIdleTimer
  cases hs : st.sessions id with
  | none => exact h
  | some s => exact Inv_setSession_update st id s _ hs h rfl rfl

theorem Inv_sseClose (st : ServerState) (id : SessionId) (h : Inv st) :
    Inv (sseCloseHandler id st) := by
  unfold sseCloseHandler
  cases hs : st.sessions id with
  | none => exact h
  | some s => exact Inv_setSession_update st id s _ hs h rfl rfl

theorem Inv_credsUpdate (st : ServerState) (id : SessionId) (h : Inv st) :
    Inv (credsUpdateHandler id st) := by
  unfold credsUpdateHandler
  cases hs : st.sessions id with
  | none => exact h
  | some s => exact Inv_setSession_update st id s _ hs h rfl rfl

theorem Inv_attachSSE (st : ServerState) (id : SessionId) (h : Inv st) :
    Inv (attachSSEToSession id st) := by
  unfold attachSSEToSession
  cases hs : st.sessions id with
  | none =>
      simp only [hs, Option.getD_none]
      exact Inv_setSession_insert st id _ hs h
  | some s =>
      simp only [hs, Option.getD_some]
      exact Inv_setSession_update st id s _ hs h rfl rfl

theorem createQRSession_getters (st : ServerState) (id : SessionId) :
    (∀ j, (createQRSession id st).sessions j =
      if j = id then
        some { authDir := true, socket := true, phone := none, sse := false,
               credsSaved := false, idleTimer := true }
      else st.sessions j) ∧
    (∀ j, (createQRSession id st).dirExists j = if j = id then true else st.dirExists j) ∧
    (createQRSession id st).activeByPhone = st.activeByPhone := by
  unfold createQRSession startIdleTimer
  refine ⟨fun j => ?_, fun j => ?_, ?_⟩ <;>
    first
      | (by_cases hj : j = id <;> simp [hj])
      | simp

theorem registerPairSession_getters (st : ServerState) (id : SessionId) (p : Phone) :
    (∀ j, (registerPairSession id p st).sessions j =
      if j = id then
        some { authDir := true, socket := true, phone := some p, sse := false,
               credsSaved := false, idleTimer := true }
      else st.sessions j) ∧
    (∀ j, (registerPairSession id p st).dirExists j = if j = id then true else st.dirExists j) ∧
    (∀ q, (registerPairSession id p st).activeByPhone q =
      if q = p then some id else st.activeByPhone q) := by
  unfold registerPairSession startIdleTimer
  refine ⟨fun j => ?_, fun j => ?_, fun q => ?_⟩ <;>
    first
      | (by_cases hj : j = id <;> simp [hj])
      | simp

theorem Inv_createQR (st : ServerState) (id : SessionId) (h : Inv st)
    (hn : st.sessions id = none) : Inv (createQRSession id st) := by
  obtain ⟨g1, g2, g3⟩ := createQRSession_getters st id
  constructor
  · intro j hj
    rw [g2 j] at hj
    by_cases hje : j = id
    · subst hje
      exact ⟨_, by rw [g1, if_pos rfl], rfl⟩
    · rw [if_neg hje] at hj
      obtain ⟨t, ht, ha⟩ := h.1 j hj
      exact ⟨t, by rw [g1, if_neg hje]; exact ht, ha⟩
  · intro p i hp
    rw [g3] at hp
    obtain ⟨t, ht, hpt⟩ := h.2 p i hp
    by_cases hie : i = id
    · subst hie; rw [hn] at ht; cases ht
    · exact ⟨t, by rw [g1, if_neg hie]; exact ht, hpt⟩

theorem Inv_registerPair (st : ServerState) (id : SessionId) (p : Phone) (h : Inv st)
    (hn : st.sessions id = none) : Inv (registerPairSession id p st) := by
  obtain ⟨g1, g2, g3⟩ := registerPairSession_getters st id p
  constructor
  · intro j hj
    rw [g2 j] at hj
    by_cases hje : j = id
    · subst hje
      exact ⟨_, by rw [g1, if_pos rfl], rfl⟩
    · rw [if_neg hje] at hj
      obtain ⟨t, ht, ha⟩ := h.1 j hj
      exact ⟨t, by rw [g1, if_neg hje]; exact ht, ha⟩
  · intro q i hq
    rw [g3 q] at hq
    by_cases hqp : q = p
    · subst hqp
      rw [if_pos rfl] at hq
      injection hq with hq2
      subst hq2
      exact ⟨_, by rw [g1, if_pos rfl], rfl⟩
    · rw [if_neg hqp] at hq
      obtain ⟨t, ht, hpt⟩ := h.2 q i hq
      by_cases hie : i = id
      · subst hie; rw [hn] at ht; cases ht
      · exact ⟨t, by rw [g1, if_neg hie]; exact ht, hpt⟩

theorem clearSession_sessions_other (st : ServerState) (old id : SessionId)
    (hn : st.sessions id = none) : (clearSession old st).sessions id = none := by
  cases hse : st.sessions old with
  | none => rw [clearSession_none st old hse]; exact hn
  | some se =>
      rw [clearSession_sessions st old se hse id]
      by_cases he : id = old
      · simp [he]
      · rw [if_neg he]; exact hn

theorem Inv_createPair (st : ServerState) (id : SessionId) (p : Phone) (h : Inv st)
    (hn : st.sessions id = none) : Inv (createPairSession id p st) := by
  unfold createPairSession
  cases hact : st.activeByPhone p with
  | none =>
      simp only [hact]
      exact Inv_registerPair st id p h hn
  | some existing =>
      simp only [hact]
      exact Inv_registerPair _ id p (Inv_clearSession st existing h)
        (clearSession_sessions_other st existing id hn)

theorem Inv_step (st : ServerState) (op : Op) (h : Inv st) (hf : freshFor st op = true) :
    Inv (step st op) := by
  cases op with
  | createQR id =>
      have hn : st.sessions id = none := by
        simp only [freshFor, Bool.and_eq_true, decide_eq_true_eq] at hf
        exact hf.1
      exact Inv_createQR st id h hn
  | createPair id p =>
      have hn : st.sessions id = none := by
        simp only [freshFor, Bool.and_eq_true, decide_eq_true_eq] at hf
        exact hf.1
      exact Inv_createPair st id p h hn
  | finalize id =>
      rw [show step st (Op.finalize id) = finalizeSession id st from rfl,
        finalizeSession_eq_clearSession]
      exact Inv_clearSession st id h
  | clearOp id => exact Inv_clearSession st id h
  | idleFire id =>
      rw [show step st (Op.idleFire id) = idleTimerFire id st from rfl,
        idleTimerFire_eq_clearSession]
      exact Inv_clearSession st id h
  | attachSSE id => exact Inv_attachSSE st id h
  | sseClose id => exact Inv_sseClose st id h
  | credsUpdate id => exact Inv_credsUpdate st id h

theorem run_cons (st : ServerState) (op : Op) (ops : List Op) :
    run st (op :: ops) = run (step st op) ops := rfl

theorem run_append (st : ServerState) (l1 l2 : List Op) :
    run st (l1 ++ l2) = run (run st l1) l2 := by
  simp [run, List.foldl_append]

theorem wfTrace_cons (st : ServerState) (op : Op) (tl : List Op) :
    wfTrace st (op :: tl) = (freshFor st op && wfTrace (step st op) tl) := rfl

theorem wfTrace_append :
    ∀ (l1 : List Op) (l2 : List Op) (st : ServerState),
      wfTrace st (l1 ++ l2) = (wfTrace st l1 && wfTrace (run st l1) l2) := by
  intro l1
  induction l1 with
  | nil => intro l2 st; simp [wfTrace, run]
  | cons op tl ih =>
      intro l2 st
      rw [List.cons_append, wfTrace_cons, wfTrace_cons, ih, run_cons, Bool.and_assoc]

theorem Inv_initState : Inv initState := by
  constructor
  · intro i hi; simp [initState] at hi
  · intro p i hp; simp [initState] at hp

theorem Inv_run :
    ∀ (ops : List Op) (st : ServerState), Inv st → wfTrace st ops = true →
      Inv (run st ops) := by
  intro ops
  induction ops with
  | nil => intro st h _; exact h
  | cons op tl ih =>
      intro st h hwf
      rw [wfTrace_cons, Bool.and_eq_true] at hwf
      exact ih (step st op) (Inv_step st op h hwf.1) hwf.2

theorem createPairSession_active_self (st : ServerState) (id : SessionId) (p : Phone) :
    (createPairSession id p st).activeByPhone p = some id := by
  unfold createPairSession
  cases hact : st.activeByPhone p with
  | none =>
      simp only [hact]
      rw [(registerPairSession_getters st id p).2.2 p, if_pos rfl]
  | some existing =>
      simp only [hact]
      rw [(registerPairSession_getters _ id p).2.2 p, if_pos rfl]

/-- C1: for every session id and well-formed sequence of operations, after
any terminal transition (`finalizeSession`, forced `clearSession`, or the
idle-timer firing, each applied together with the directory cleanup it
initiates) the credential directory for that id no longer exists on disk
and the id is absent from the `sessions` registry. -/
theorem terminal_transition_cleanup (ops : List Op) (id : SessionId) (t : Op)
    (ht : t = Op.finalize id ∨ t = Op.clearOp id ∨ t = Op.idleFire id)
    (hwf : wfTrace initState (ops ++ [t]) = true) :
    (run initState (ops ++ [t])).dirExists id = false ∧
    (run initState (ops ++ [t])).sessions id = none := by
  rw [wfTrace_append, Bool.and_eq_true] at hwf
  have hInv : Inv (run initState ops) := Inv_run ops initState Inv_initState hwf.1
  rw [run_append]
  rcases ht with rfl | rfl | rfl
  · rw [show run (run initState ops) [Op.finalize id] =
        finalizeSession id (run initState ops) from rfl,
      finalizeSession_eq_clearSession]
    exact clearSession_post _ id hInv
  · exact clearSession_post _ id hInv
  · rw [show run (run initState ops) [Op.idleFire id] =
        idleTimerFire id (run initState ops) from rfl,
      idleTimerFire_eq_clearSession]
    exact clearSession_post _ id hInv

theorem terminal_transition_cleanup_witness :
    ((Op.clearOp 0 = Op.finalize 0 ∨ Op.clearOp 0 = Op.clearOp 0 ∨ Op.clearOp 0 = Op.idleFire 0) ∧
      wfTrace initState ([Op.createQR 0] ++ [Op.clearOp 0]) = true) ∧
    ((run initState ([Op.createQR 0] ++ [Op.clearOp 0])).dirExists 0 = false ∧
      (run initState ([Op.createQR 0] ++ [Op.clearOp 0])).sessions 0 = none) :=
  ⟨⟨Or.inr (Or.inl rfl), by decide⟩,
    terminal_transition_cleanup [Op.createQR 0] 0 (Op.clearOp 0)
      (Or.inr (Or.inl rfl)) (by decide)⟩

/-- C3: the phone index maps each phone to at most one live session id
(every registered id is a live session carrying that phone), and a
`POST /pair` for a phone with an existing active session runs
`clearSession` on the old session and only then registers the new id,
which afterwards is the one the phone resolves to. -/
theorem pair_supersession (ops : List Op) (id : SessionId) (p : Phone)
    (hwf : wfTrace initState (ops ++ [Op.createPair id p]) = true) :
    (run initState (ops ++ [Op.createPair id p])).activeByPhone p = some id ∧
    (∀ q i, (run initState (ops ++ [Op.createPair id p])).activeByPhone q = some i →
      ∃ s, (run initState (ops ++ [Op.createPair id p])).sessions i = some s ∧
        s.phone = some q) ∧
    (∀ old, (run initState ops).activeByPhone p = some old →
      old ≠ id ∧
      (run initState (ops ++ [Op.createPair id p])).sessions old = none ∧
      createPairSession id p (run initState ops) =
        registerPairSession id p (clearSession old (run initState ops))) := by
  have hwf2 := hwf
  rw [wfTrace_append, Bool.and_eq_true] at hwf2
  have hInv0 : Inv (run initState ops) := Inv_run ops initState Inv_initState hwf2.1
  have hf : freshFor (run initState ops) (Op.createPair id p) = true := by
    have hstep := hwf2.2
    rw [wfTrace_cons, Bool.and_eq_true] at hstep
    exact hstep.1
  have hn : (run initState ops).sessions id = none := by
    simp only [freshFor, Bool.and_eq_true, decide_eq_true_eq] at hf
    exact hf.1
  have hfull : run initState (ops ++ [Op.createPair id p]) =
      createPairSession id p (run initState ops) := by
    rw [run_append]; rfl
  have hInvFull : Inv (run initState (ops ++ [Op.createPair id p])) :=
    Inv_run _ initState Inv_initState hwf
  refine ⟨?_, hInvFull.2, ?_⟩
  · rw [hfull]
    exact createPairSession_active_self (run initState ops) id p
  · intro old hold
    have hne : old ≠ id := by
      rintro rfl
      obtain ⟨t, ht, _⟩ := hInv0.2 p old hold
      rw [hn] at ht
      cases ht
    have heq : createPairSession id p (run initState ops) =
        registerPairSession id p (clearSession old (run initState ops)) := by
      unfold createPairSession
      simp only [hold]
    refine ⟨hne, ?_, heq⟩
    rw [hfull, heq, (registerPairSession_getters _ id p).1 old, if_neg hne]
    exact (clearSession_post (run initState ops) old hInv0).2

theorem pair_supersession_witness :
    (wfTrace initState ([Op.createPair 0 5] ++ [Op.createPair 1 5]) = true) ∧
    ((run initState ([Op.createPair 0 5] ++ [Op.createPair 1 5])).activeByPhone 5 = some 1 ∧
      (run initState ([Op.createPair 0 5] ++ [Op.createPair 1 5])).sessions 0 = none) := by
  have h := pair_supersession [Op.createPair 0 5] 1 5 (by decide)
  exact ⟨by decide, h.1, (h.2.2 0 (by decide)).2.1⟩

/-- C10: opening `GET /events/:id` for an id that is not in the registry
inserts a fresh record holding only the stream reference (no directory,
no socket, no phone, no timer), and the stream-close handler only deletes
the `sse` field: the record itself stays in the registry. -/
theorem events_unknown_id_record (st : ServerState) (id : SessionId)
    (hn : st.sessions id = none) :
    (attachSSEToSession id st).sessions id =
      some { authDir := false, socket := false, phone := none, sse := true,
             credsSaved := false, idleTimer := false } ∧
    (sseCloseHandler id (attachSSEToSession id st)).sessions id =
      some { authDir := false, socket := false, phone := none, sse := false,
             credsSaved := false, idleTimer := false } := by
  have h1 : (attachSSEToSession id st).sessions id =
      some { authDir := false, socket := false, phone := none, sse := true,
             credsSaved := false, idleTimer := false } := by
    unfold attachSSEToSession
    simp [hn]
  refine ⟨h1, ?_⟩
  unfold sseCloseHandler
  rw [h1]
  simp

theorem events_unknown_id_record_witness :
    (initState.sessions 0 = none) ∧
    ((attachSSEToSession 0 initState).sessions 0 =
      some { authDir := false, socket := false, phone := none, sse := true,
             credsSaved := false, idleTimer := false } ∧
    (sseCloseHandler 0 (attachSSEToSession 0 initState)).sessions 0 =
      some { authDir := false, socket := false, phone := none, sse := false,
             credsSaved := false, idleTimer := false }) :=
  ⟨rfl, events_unknown_id_record initState 0 rfl⟩

/-! ## The fire-and-forget cleanup of `clearSession` and the `POST /pair`
supersession window (C4)

`clearSession` (line 79) calls `cleanupDir(s.authDir).catch(() => {})`
without awaiting it, so the directory removal it starts runs as a separate
task that completes at some later suspension point.  This model splits that
task out: `clearSessionAsync` marks the removal as pending, and
`runCleanupTask` is the scheduler step that lets the pending `fsPromises.rm`
complete.  `pairHandlerAsync` is the `POST /pair` handler up to (and
including) the point where the response carrying the new session id is
written, in the interleaving where the pending removal has not yet run. -/

structure AsyncState where
  sessions : SessionId → Option Session
  activeByPhone : Phone → Option SessionId
  dirExists : SessionId → Bool
  pendingCleanup : SessionId → Bool

/-- `clearSession` with its `cleanupDir` left pending instead of applied. -/
def clearSessionAsync (sessionId : SessionId) (st : AsyncState) : AsyncState :=
  match st.sessions sessionId with
  | none => st
  | some s =>
      let st1 :=
        if s.authDir then
          { st with pendingCleanup := fun j => if j = sessionId then true else st.pendingCleanup j }
        else st
      let st2 :=
        match s.phone with
        | some p =>
            if st1.activeByPhone p = some sessionId then
              { st1 with activeByPhone := fun q => if q = p then none else st1.activeByPhone q }
            else st1
        | none => st1
      { st2 with sessions := fun j => if j = sessionId then none else st2.sessions j }

/-- The pending `fsPromises.rm` of a cleared session completes. -/
def runCleanupTask (sessionId : SessionId) (st : AsyncState) : AsyncState :=
  if st.pendingCleanup sessionId then
    { st with dirExists := fun j => if j = sessionId then false else st.dirExists j,
              pendingCleanup := fun j => if j = sessionId then false else st.pendingCleanup j }
  else st

/-- The `POST /pair` handler (lines 285-357) up to the response: supersession
check and `clearSession`, `mkdir`, registration, `activeByPhone` update, and
the `res.json({ sessionId, pairingCode })` write, whose payload id is the
second component. -/
def pairHandlerAsync (sessionId : SessionId) (p : Phone) (st : AsyncState) :
    AsyncState × Option SessionId :=
  let st0 :=
    match st.activeByPhone p with
    | some existing => clearSessionAsync existing st
    | none => st
  let st1 := { st0 with dirExists := fun j => if j = sessionId then true else st0.dirExists j }
  let st2 := { st1 with
    sessions := fun j =>
      if j = sessionId then
        some { authDir := true, socket := true, phone := some p, sse := false,
               credsSaved := false, idleTimer := true }
      else st1.sessions j,
    activeByPhone := fun q => if q = p then some sessionId else st1.activeByPhone q }
  (st2, some sessionId)

def asyncInit : AsyncState :=
  { sessions := fun _ => none, activeByPhone := fun _ => none,
    dirExists := fun _ => false, pendingCleanup := fun _ => false }

/-- The state after a first `POST /pair` created session 0 for phone 5. -/
def asyncSt0 : AsyncState := (pairHandlerAsync 0 5 asyncInit).1

/-- In the interleaving where the fire-and-forget `fsPromises.rm` spawned
by `clearSession` has not yet completed, the `POST /pair` response carrying
the new session id is written while the superseded session's credential
directory still exists on disk — so the directory is NOT removed at every
point before the response, refuting the claim as stated.  (The phone index
and registry are updated synchronously, as the other conjuncts show.) -/
theorem pair_dir_removed_before_response_counterexample :
    (pairHandlerAsync 1 5 asyncSt0).2 = some 1 ∧
    (pairHandlerAsync 1 5 asyncSt0).1.sessions 0 = none ∧
    (pairHandlerAsync 1 5 asyncSt0).1.activeByPhone 5 = some 1 ∧
    (pairHandlerAsync 1 5 asyncSt0).1.dirExists 0 = true := by
  refine ⟨rfl, ?_, ?_, rfl⟩ <;> decide

/-- C4 (amended): in the supersession window the old session's id stops
being resolvable through the phone index and the registry before the new
id is returned, and the old directory's removal is initiated (pending)
before the response — but it completes only when the spawned cleanup task
runs, which may be after the response. -/
theorem pair_supersession_async (st : AsyncState) (old id : SessionId) (p : Phone) (s : Session)
    (hmap : st.activeByPhone p = some old)
    (hold : st.sessions old = some s)
    (hdir : s.authDir = true)
    (hne : id ≠ old) :
    (pairHandlerAsync id p st).2 = some id ∧
    (pairHandlerAsync id p st).1.activeByPhone p = some id ∧
    (pairHandlerAsync id p st).1.sessions old = none ∧
    (pairHandlerAsync id p st).1.pendingCleanup old = true ∧
    (runCleanupTask old (pairHandlerAsync id p st).1).dirExists old = false := by
  have hne2 : old ≠ id := fun h => hne h.symm
  have hclear : ∀ j, (clearSessionAsync old st).sessions j =
      if j = old then none else st.sessions j := by
    intro j
    unfold clearSessionAsync
    rw [hold]
    cases hph : s.phone with
    | none => simp [hdir, hph]
    | some q =>
        by_cases hm : st.activeByPhone q = some old <;> simp [hdir, hph, hm]
  have hpend : (clearSessionAsync old st).pendingCleanup old = true := by
    unfold clearSessionAsync
    rw [hold]
    cases hph : s.phone with
    | none => simp [hdir, hph]
    | some q =>
        by_cases hm : st.activeByPhone q = some old <;> simp [hdir, hph, hm]
  refine ⟨rfl, ?_, ?_, ?_, ?_⟩
  · simp [pairHandlerAsync]
  · simp only [pairHandlerAsync, hmap]
    simp [hne2, hclear old]
  · simp only [pairHandlerAsync, hmap]
    simpa using hpend
  · simp only [runCleanupTask, pairHandlerAsync, hmap]
    simp [hpend]

theorem pair_supersession_async_witness :
    (asyncSt0.activeByPhone 5 = some 0 ∧
      asyncSt0.sessions 0 =
        some { authDir := true, socket := true, phone := some 5, sse := false,
               credsSaved := false, idleTimer := true } ∧
      (1 : SessionId) ≠ 0) ∧
    ((pairHandlerAsync 1 5 asyncSt0).2 = some 1 ∧
     (pairHandlerAsync 1 5 asyncSt0).1.activeByPhone 5 = some 1 ∧
     (pairHandlerAsync 1 5 asyncSt0).1.sessions 0 = none ∧
     (pairHandlerAsync 1 5 asyncSt0).1.pendingCleanup 0 = true ∧
     (runCleanupTask 0 (pairHandlerAsync 1 5 asyncSt0).1).dirExists 0 = false) :=
  ⟨⟨by decide, by decide, by decide⟩,
    pair_supersession_async asyncSt0 0 1 5
      { authDir := true, socket := true, phone := some 5, sse := false,
        credsSaved := false, idleTimer := true }
      (by decide) (by decide) (by decide) (by decide)⟩

/-! ## `POST /qr` setup failures (C5)

Lines 187-194 of src/index.js: `await fsPromises.mkdir(authDir, ...)` runs
BEFORE the `try` block; the `try`/`catch` (lines 194, 272-277) only covers
`useMultiFileAuthState`/`makeWASocket` and later wiring.  A `mkdir`
rejection therefore propagates out of the async route handler: no response
is written by the handler and no session is registered.  `mkdirOk` and
`setupOk` are environment oracles for the two setup stages. -/

structure QrOutcome where
  status : Option Nat
  errorBody : Bool
  registered : Bool
  dirRemains : Bool
deriving DecidableEq, Repr

/-- The state-visible outcome of the `POST /qr` handler body (lines
187-277) as a function of which setup stage fails.  `status = none` means
the handler wrote no response at all. -/
def postQrSetup (mkdirOk setupOk : Bool) : QrOutcome :=
  if mkdirOk = false then
    { status := none, errorBody := false, registered := false, dirRemains := false }
  else if setupOk = false then
    { status := some 500, errorBody := true, registered := false, dirRemains := false }
  else
    { status := none, errorBody := false, registered := true, dirRemains := true }

/-- C5 (the code's actual behaviour at the claim's failing input): when the
credential-directory creation of `POST /qr` fails, no registry entry is
created — but no HTTP 500 `{error}` response is written either, because the
`mkdir` call sits outside the `try`/`catch`; the rejection escapes the
handler.  (By contrast a failure inside the `try` does produce the 500.) -/
theorem qr_mkdir_failure_no_response (setupOk : Bool) :
    (postQrSetup false setupOk).status = none ∧
    (postQrSetup false setupOk).errorBody = false ∧
    (postQrSetup false setupOk).registered = false ∧
    (postQrSetup true false).status = some 500 ∧
    (postQrSetup true false).errorBody = true := by
  refine ⟨?_, ?_, ?_, rfl, rfl⟩ <;> simp [postQrSetup]

/-! ## The `finalizeSession` credential-save poll loop (C6)

Lines 92-99 of src/index.js:
`while (!s.credsSaved && Date.now() - start < maxWait) { await 200ms }`
with `maxWait = 3000`.  `credsSavedAt t` is the value of the flag observed
at elapsed time `t`; each sleep advances elapsed time by the fixed
200 ms interval.  `finalizePollCount` counts the sleeps the loop performs. -/

def maxWait : Nat := 3000

def pollInterval : Nat := 200

def finalizePollCount (credsSavedAt : Nat → Bool) (elapsed : Nat) : Nat :=
  if credsSavedAt elapsed = false ∧ elapsed < maxWait then
    finalizePollCount credsSavedAt (elapsed + pollInterval) + 1
  else 0
termination_by maxWait - elapsed
decreasing_by
  simp only [maxWait, pollInterval] at *
  omega

theorem finalizePollCount_bound :
    ∀ (n : Nat) (creds : Nat → Bool) (elapsed : Nat),
      maxWait - elapsed ≤ n → pollInterval ∣ elapsed → elapsed ≤ maxWait →
      elapsed + pollInterval * finalizePollCount creds elapsed ≤ maxWait := by
  intro n
  induction n with
  | zero =>
      intro creds elapsed hn hdvd hle
      have he : elapsed = maxWait := by
        simp only [maxWait] at *
        omega
      rw [finalizePollCount]
      simp only [he, maxWait, lt_irrefl, and_false, if_false]
      simp [maxWait]
  | succ m ih =>
      intro creds elapsed hn hdvd hle
      rw [finalizePollCount]
      by_cases hc : creds elapsed = false ∧ elapsed < maxWait
      · rw [if_pos hc]
        have hstep : elapsed + pollInterval ≤ maxWait := by
          simp only [maxWait, pollInterval] at *
          omega
        have hdvd2 : pollInterval ∣ elapsed + pollInterval :=
          Dvd.dvd.add hdvd dvd_rfl
        have hn2 : maxWait - (elapsed + pollInterval) ≤ m := by
          simp only [maxWait, pollInterval] at *
          omega
        have := ih creds (elapsed + pollInterval) hn2 hdvd2 hstep
        simp only [pollInterval, maxWait] at *
        omega
      · rw [if_neg hc]
        simpa using hle

/-- C6: the credential-save wait of `finalizeSession` is bounded: the loop
polls at the fixed 200 ms interval at most 15 times, the total slept time
never exceeds the fixed 3-second timeout, whatever the `credsSaved` flag
does — and `finalizeSession` afterwards removes the session from the
registry regardless of the flag's value. -/
theorem finalize_wait_bounded (creds : Nat → Bool) :
    finalizePollCount creds 0 ≤ 15 ∧
    pollInterval * finalizePollCount creds 0 ≤ maxWait ∧
    (∀ st id, (finalizeSession id st).sessions id = none) := by
  have h := finalizePollCount_bound maxWait creds 0 (by simp) (Dvd.intro 0 rfl)
    (by simp [maxWait])
  simp only [Nat.zero_add] at h
  refine ⟨?_, h, ?_⟩
  · simp only [pollInterval, maxWait] at h
    omega
  · intro st id
    rw [finalizeSession_eq_clearSession]
    cases hs : st.sessions id with
    | none => rw [clearSession_none st id hs]; exact hs
    | some s => rw [clearSession_sessions st id s hs id, if_pos rfl]

/-! ## `cleanupDir` (lines 153-159) (C8)

The on-disk state is a predicate on paths.  `rmRecursiveForce` models
`fsPromises.rm(dir, { recursive: true, force: true })`: on success it
removes the directory and everything below it (`force` makes a missing
directory a success, which is the identity removal); `ok = false` is the
environment oracle for an rm failure.  `cleanupDir` is the `try`/`catch`
around it: a failure is logged (second component) and never rethrown, so
the caller always receives a filesystem back. -/

abbrev FsSet := List (List Nat) → Bool

def rmRecursiveForce (ok : Bool) (fs : FsSet) (dir : List (List Nat)) :
    Except Unit FsSet :=
  if ok then .ok (fun q => if dir.isPrefixOf q then false else fs q)
  else .error ()

def cleanupDir (ok : Bool) (fs : FsSet) (dir : List (List Nat)) : FsSet × Bool :=
  match rmRecursiveForce ok fs dir with
  | .ok fs2 => (fs2, false)
  | .error _ => (fs, true)

/-- C8: `cleanupDir` never surfaces an error: on an rm failure it returns
the filesystem unchanged with the warning logged; on success it removes
the directory subtree; and a repeated call on the same path after a first
success changes nothing (and, when rm succeeds on the now-missing
directory as `force` guarantees, logs nothing). -/
theorem cleanupDir_contract (fs : FsSet) (dir : List (List Nat)) :
    cleanupDir false fs dir = (fs, true) ∧
    (∀ q, (cleanupDir true fs dir).1 q = if dir.isPrefixOf q then false else fs q) ∧
    (cleanupDir true fs dir).2 = false ∧
    (∀ ok2 q, (cleanupDir ok2 (cleanupDir true fs dir).1 dir).1 q =
      (cleanupDir true fs dir).1 q) ∧
    (cleanupDir true (cleanupDir true fs dir).1 dir).2 = false := by
  refine ⟨rfl, fun q => rfl, rfl, ?_, rfl⟩
  intro ok2 q
  cases ok2 with
  | false => rfl
  | true =>
      simp only [cleanupDir, rmRecursiveForce, if_true]
      by_cases hp : dir.isPrefixOf q = true <;> simp [hp]

/-! ## The response-sent guard of the flow handlers (C7)

Both handlers keep a per-request `resSent` flag.  A `connection.update`
callback that may respond is modelled as a small program of atomic phases
separated by its `await`s:

* `checkStart` — the entry guard (`qr && !resSent` at line 222,
  `(connection === 'connecting' || qr) && !resSent` at line 332); if the
  flag is already set the send is abandoned;
* `sendNoCheck` — the `/qr` success write (lines 226-227):
  `res.json(...); resSent = true` with NO fresh guard after the
  intervening `await QRCode.toDataURL(qr)`;
* `sendChecked` — the `/pair` write (lines 354-357) and both error writes
  (232-235, 361-364): `if (!resSent) { res.json(...); resSent = true }`.

`runTasks` interleaves any number of such callbacks under an arbitrary
scheduler (one phase per scheduler pick, as the event loop does at
suspension points); `runSequential` runs callbacks that never overlap. -/

inductive GuardAction where
  | checkStart
  | sendNoCheck
  | sendChecked
deriving DecidableEq, Repr

structure GuardState where
  resSent : Bool
  sends : Nat
deriving DecidableEq, Repr

def qrSendProgram : List GuardAction :=
  [GuardAction.checkStart, GuardAction.sendNoCheck]

def pairSendProgram : List GuardAction :=
  [GuardAction.checkStart, GuardAction.sendChecked]

/-- One atomic phase: the new state, and whether the callback continues. -/
def stepGuard (g : GuardState) : GuardAction → GuardState × Bool
  | GuardAction.checkStart => (g, !g.resSent)
  | GuardAction.sendNoCheck => ({ resSent := true, sends := g.sends + 1 }, true)
  | GuardAction.sendChecked =>
      (if g.resSent then g else { resSent := true, sends := g.sends + 1 }, true)

def runTasks : GuardState → List (List GuardAction) → List Nat → GuardState
  | g, _, [] => g
  | g, tasks, i :: sched =>
      match tasks.getD i [] with
      | [] => runTasks g tasks sched
      | a :: rest =>
          runTasks (stepGuard g a).1
            (tasks.set i (if (stepGuard g a).2 then rest else [])) sched

theorem runTasks_cons (g : GuardState) (tasks : List (List GuardAction)) (i : Nat)
    (sched : List Nat) :
    runTasks g tasks (i :: sched) =
      match tasks.getD i [] with
      | [] => runTasks g tasks sched
      | a :: rest =>
          runTasks (stepGuard g a).1
            (tasks.set i (if (stepGuard g a).2 then rest else [])) sched := rfl

def runToCompletion : GuardState → List GuardAction → GuardState
  | g, [] => g
  | g, a :: rest =>
      if (stepGuard g a).2 then runToCompletion (stepGuard g a).1 rest
      else (stepGuard g a).1

def runSequential (g : GuardState) (tasks : List (List GuardAction)) : GuardState :=
  tasks.foldl runToCompletion g

/-- Two overlapping `/qr` QR callbacks for the same request: both pass the
entry guard before either reaches the write, and the request is answered
twice.  This interleaving refutes the claim that every path checks the
guard immediately before writing. -/
theorem qr_guard_double_send_counterexample :
    (runTasks { resSent := false, sends := 0 }
      [qrSendProgram, qrSendProgram] [0, 1, 0, 1]).sends = 2 := by decide

def GuardInv (g : GuardState) : Prop :=
  (g.resSent = false → g.sends = 0) ∧ g.sends ≤ 1

def pairTaskOk (t : List GuardAction) : Prop :=
  t = pairSendProgram ∨ t = [GuardAction.sendChecked] ∨ t = []

theorem getD_mem_or_default (l : List (List GuardAction)) (i : Nat) :
    l.getD i [] ∈ l ∨ l.getD i [] = [] := by
  by_cases h : i < l.length
  · left
    rw [List.getD_eq_getElem l [] h]
    exact List.getElem_mem h
  · right
    rw [List.getD_eq_default l [] (by omega)]

theorem GuardInv_after_send (g : GuardState) (hz : g.sends = 0) :
    GuardInv { resSent := true, sends := g.sends + 1 } := by
  refine ⟨fun h => ?_, ?_⟩
  · simp at h
  · simp [hz]

theorem runTasks_pair_inv :
    ∀ (sched : List Nat) (g : GuardState) (tasks : List (List GuardAction)),
      (∀ t ∈ tasks, pairTaskOk t) → GuardInv g →
      GuardInv (runTasks g tasks sched) := by
  intro sched
  induction sched with
  | nil => intro g tasks _ hg; exact hg
  | cons i sched ih =>
      intro g tasks htasks hg
      rw [runTasks_cons]
      cases hti : tasks.getD i [] with
      | nil => exact ih g tasks htasks hg
      | cons a rest =>
          have hmem : (a :: rest) ∈ tasks := by
            rcases getD_mem_or_default tasks i with h | h
            · rw [hti] at h; exact h
            · rw [hti] at h; cases h
          rcases htasks _ hmem with h | h | h
          · rw [pairSendProgram] at h
            injection h with h1 h2
            subst h1
            subst h2
            apply ih
            · intro t ht
              rcases List.mem_or_eq_of_mem_set ht with h2 | h2
              · exact htasks t h2
              · subst h2
                cases hgr : g.resSent <;>
                  simp [stepGuard, hgr, pairTaskOk, pairSendProgram]
            · simpa [stepGuard] using hg
          · injection h with h1 h2
            subst h1
            subst h2
            apply ih
            · intro t ht
              rcases List.mem_or_eq_of_mem_set ht with h2 | h2
              · exact htasks t h2
              · subst h2
                simp [stepGuard, pairTaskOk]
            · obtain ⟨hg1, hg2⟩ := hg
              cases hgr : g.resSent
              · have hz : g.sends = 0 := hg1 hgr
                have hres : (stepGuard g GuardAction.sendChecked).1 =
                    { resSent := true, sends := g.sends + 1 } := by
                  simp [stepGuard, hgr]
                rw [hres]
                exact GuardInv_after_send g hz
              · have hres : (stepGuard g GuardAction.sendChecked).1 = g := by
                  simp [stepGuard, hgr]
                rw [hres]
                exact ⟨hg1, hg2⟩
          · cases h

theorem runToCompletion_cons (g : GuardState) (a : GuardAction) (rest : List GuardAction) :
    runToCompletion g (a :: rest) =
      if (stepGuard g a).2 then runToCompletion (stepGuard g a).1 rest
      else (stepGuard g a).1 := rfl

theorem runToCompletion_entry_guarded (g : GuardState) (t : List GuardAction)
    (ht : t = qrSendProgram ∨ t = pairSendProgram) (hg : GuardInv g) :
    GuardInv (runToCompletion g t) := by
  obtain ⟨hg1, hg2⟩ := hg
  have hnil : ∀ g2 : GuardState, runToCompletion g2 [] = g2 := fun _ => rfl
  rcases ht with rfl | rfl
  · cases hgr : g.resSent
    · have hz : g.sends = 0 := hg1 hgr
      have hres : runToCompletion g qrSendProgram =
          { resSent := true, sends := g.sends + 1 } := by
        rw [show qrSendProgram = [GuardAction.checkStart, GuardAction.sendNoCheck] from rfl,
          runToCompletion_cons]
        simp [stepGuard, hgr, runToCompletion_cons, hnil]
      rw [hres]
      exact GuardInv_after_send g hz
    · have hres : runToCompletion g qrSendProgram = g := by
        rw [show qrSendProgram = [GuardAction.checkStart, GuardAction.sendNoCheck] from rfl,
          runToCompletion_cons]
        simp [stepGuard, hgr]
      rw [hres]
      exact ⟨hg1, hg2⟩
  · cases hgr : g.resSent
    · have hz : g.sends = 0 := hg1 hgr
      have hres : runToCompletion g pairSendProgram =
          { resSent := true, sends := g.sends + 1 } := by
        rw [show pairSendProgram = [GuardAction.checkStart, GuardAction.sendChecked] from rfl,
          runToCompletion_cons]
        simp [stepGuard, hgr, runToCompletion_cons, hnil]
      rw [hres]
      exact GuardInv_after_send g hz
    · have hres : runToCompletion g pairSendProgram = g := by
        rw [show pairSendProgram = [GuardAction.checkStart, GuardAction.sendChecked] from rfl,
          runToCompletion_cons]
        simp [stepGuard, hgr]
      rw [hres]
      exact ⟨hg1, hg2⟩

theorem runSequential_inv :
    ∀ (tasks : List (List GuardAction)) (g : GuardState),
      (∀ t ∈ tasks, t = qrSendProgram ∨ t = pairSendProgram) → GuardInv g →
      GuardInv (runSequential g tasks) := by
  intro tasks
  induction tasks with
  | nil => intro g _ hg; exact hg
  | cons t tl ih =>
      intro g htasks hg
      have hstep : runSequential g (t :: tl) =
          runSequential (runToCompletion g t) tl := rfl
      rw [hstep]
      exact ih _ (fun x hx => htasks x (by simp [hx]))
        (runToCompletion_entry_guarded g t (htasks t (by simp)) hg)

/-- C7 (amended): the `/pair` code path and both error paths re-check the
guard immediately before writing, so under every interleaving of such
callbacks the response is written at most once; the `/qr` success path
checks the guard only at callback entry, before the `await`, so it writes
at most once only when the QR callbacks do not overlap (sequential
execution) — overlapping QR callbacks can write twice
(`qr_guard_double_send_counterexample`). -/
theorem response_sent_at_most_once
    (pairTasks : List (List GuardAction)) (sched : List Nat)
    (qrTasks : List (List GuardAction))
    (hp : ∀ t ∈ pairTasks, t = pairSendProgram)
    (hq : ∀ t ∈ qrTasks, t = qrSendProgram ∨ t = pairSendProgram) :
    (runTasks { resSent := false, sends := 0 } pairTasks sched).sends ≤ 1 ∧
    (runSequential { resSent := false, sends := 0 } qrTasks).sends ≤ 1 := by
  constructor
  · exact (runTasks_pair_inv sched { resSent := false, sends := 0 } pairTasks
      (fun t ht => Or.inl (hp t ht)) ⟨fun _ => rfl, by simp⟩).2
  · exact (runSequential_inv qrTasks { resSent := false, sends := 0 } hq
      ⟨fun _ => rfl, by simp⟩).2

theorem response_sent_at_most_once_witness :
    ((∀ t ∈ [pairSendProgram, pairSendProgram], t = pairSendProgram) ∧
      (∀ t ∈ [qrSendProgram, qrSendProgram],
        t = qrSendProgram ∨ t = pairSendProgram)) ∧
    ((runTasks { resSent := false, sends := 0 }
        [pairSendProgram, pairSendProgram] [0, 1, 0, 1]).sends ≤ 1 ∧
      (runSequential { resSent := false, sends := 0 }
        [qrSendProgram, qrSendProgram]).sends ≤ 1) :=
  ⟨⟨by decide, by decide⟩,
    response_sent_at_most_once [pairSendProgram, pairSendProgram] [0, 1, 0, 1]
      [qrSendProgram, qrSendProgram] (by decide) (by decide)⟩

end NINII
